import Mathlib

/-!
Verification development for the augur cache store (`augur/common/cache_store.py`,
class `UaModel`) and the sprint history aggregator
(`augur/fetchers/sprint.py`, `UaSprintDataFetcher._aggregate_sprint_history_data`).

The MongoDB-backed store is modelled shallowly: a stored document is an ordered
association list of field name/value pairs (Python dict semantics: insertion
order, unique keys), a collection is a list of documents in insertion order,
and the pymongo primitives used by the code (`find_one_and_replace`/`update`
with `upsert=True`, `insert_many`, `remove`, `find` + `sort` + `limit`) are
given as pure functions.  `augur.common.serializers.to_mongo` is not under
version control here; modelled from the spec: serialization preserves the
entry's fields, so it is the identity on documents.  Timestamps
(`datetime.datetime.utcnow()`) are an explicit `now : Int` parameter.
-/

/-- A stored field value.  `time` is a timestamp (seconds), kept as a separate
constructor because `storage_time` comparisons only apply between timestamps. -/
inductive Val where
  | str (s : String)
  | int (n : Int)
  | time (t : Int)
  | null
deriving DecidableEq, Repr

/-- A document: ordered mapping of field name to value (Python dict). -/
abbrev Doc := List (String × Val)

/-- A collection's stored contents, in insertion order. -/
abbrev Store := List Doc

/-- Field lookup (`d[k]` read side, first binding wins; dicts never hold
duplicate keys so this is the binding). -/
def getF (d : Doc) (k : String) : Option Val :=
  match d with
  | [] => none
  | (k₁, v) :: rest => if k₁ = k then some v else getF rest k

/-- Whether the field is present (`k in d`). -/
def hasF (d : Doc) (k : String) : Bool :=
  (getF d k).isSome

/-- Field assignment `d[k] = v`: updates the existing binding in place,
otherwise appends (Python dict insertion-order semantics). -/
def setF (d : Doc) (k : String) (v : Val) : Doc :=
  match d with
  | [] => [(k, v)]
  | (k₁, v₁) :: rest => if k₁ = k then (k₁, v) :: rest else (k₁, v₁) :: setF rest k v

/-- The per-collection policy configured by each `UaModel` subclass:
`get_unique_key`, `get_ttl` (seconds), `clear_before_add`, `get_unique_type`. -/
structure Cfg where
  unique_key : Option String
  ttl : Option Nat
  clear_before_add : Bool
  unique_type : Option Val
deriving DecidableEq, Repr

/-- `decorate_data`: stamps `storage_time` with the current clock and
`storage_type` with `get_unique_type()` (Python `None` when unset). -/
def decorate (cfg : Cfg) (now : Int) (d : Doc) : Doc :=
  setF (setF d "storage_time" (.time now)) "storage_type" (cfg.unique_type.getD .null)

/-- Errors raised by `save`/`update`.  `noData` is the
`ValueError("No data found to save/update")` branch (the spec's `NoDataError`),
`configError` the `ValueError` raised by `update` on a collection without a
unique index (the spec's `ConfigurationError`), and `keyError` the Python
`KeyError` from `d[unique_key]` when an entry lacks the unique-key field. -/
inductive DbErr where
  | noData
  | configError
  | keyError
deriving DecidableEq, Repr

/-- The entry batch the call operates on: `if data: clear_data(); add_data(data)`,
so a non-empty `data` argument replaces the staged `self.data`, while an empty
(falsy) argument leaves the staged batch in force. -/
def effData (selfData batch : List Doc) : List Doc :=
  if batch = [] then selfData else batch

/-- `find_one_and_replace(filter, repl, upsert=True)` (also pymongo
`collection.update(filter, repl, upsert=True)` with a replacement document):
replace the first document whose field `fk` equals `fv`; if none matches,
insert the replacement, augmented with the filter's equality field when the
replacement does not already carry it. -/
def upsertDoc (fk : String) (fv : Val) (repl : Doc) : Store → Store
  | [] => [if hasF repl fk then repl else setF repl fk fv]
  | d :: rest =>
    if getF d fk = some fv then repl :: rest
    else d :: upsertDoc fk fv repl rest

/-- One upsert per decorated entry, in batch order.  `fk` is the filter field
and `keyf` extracts the filter value from each entry. -/
def upsertAllBy (fk : String) (keyf : Doc → Val) (ds : List Doc) (st : Store) : Store :=
  ds.foldl (fun acc d => upsertDoc fk (keyf d) d acc) st

/-- `UaModel.save`.  The Python mutates `self.data`/the collection; here the
staged batch, the argument batch, the stored contents and the clock are
explicit and the new contents (or the raised error) is returned.  Note the
keyed path of the source filters each upsert on the literal field `"id"`
(`find_one_and_replace({"id": d[unique_key]}, ...)`), not on the unique-key
field itself.  The `KeyError` from `d[unique_key]` is checked up front; the
source would raise it mid-loop, but an error return carries no contents so the
successful results agree. -/
def save (cfg : Cfg) (selfData batch : List Doc) (store : Store) (now : Int) :
    Except DbErr Store :=
  let eff := effData selfData batch
  if eff = [] then .error .noData
  else
    let ds := eff.map (decorate cfg now)
    let st₀ := if cfg.clear_before_add then [] else store
    match cfg.unique_key with
    | some k =>
      if ds.all (fun d => hasF d k) then
        .ok (upsertAllBy "id" (fun d => (getF d k).getD .null) ds st₀)
      else .error .keyError
    | none => .ok (st₀ ++ ds)

/-- `UaModel.update`: requires a unique key (checked before anything else),
never clears, and upserts each entry keyed on the unique-key field
(`collection.update({unique_key: d[unique_key]}, ..., upsert=True)`). -/
def update (cfg : Cfg) (selfData batch : List Doc) (store : Store) (now : Int) :
    Except DbErr Store :=
  match cfg.unique_key with
  | none => .error .configError
  | some k =>
    let eff := effData selfData batch
    if eff = [] then .error .noData
    else
      let ds := eff.map (decorate cfg now)
      if ds.all (fun d => hasF d k) then
        .ok (upsertAllBy k (fun d => (getF d k).getD .null) ds store)
      else .error .keyError

/-- Contents of the collection after a call that may have raised: an error
leaves the stored contents untouched. -/
def storeAfter (st : Store) (r : Except DbErr Store) : Store :=
  match r with
  | .ok st₁ => st₁
  | .error _ => st

/-- A query clause: equality or the `{"$gte": v}` range operator. -/
inductive Cond where
  | eq (v : Val)
  | gte (v : Val)
deriving DecidableEq, Repr

/-- A query object: Python dict from field name to clause. -/
abbrev Query := List (String × Cond)

/-- Clause lookup (`'storage_time' in query_object`). -/
def qGet (q : Query) (k : String) : Option Cond :=
  match q with
  | [] => none
  | (k₁, c) :: rest => if k₁ = k then some c else qGet rest k

/-- `query_object.update({k: c})`: replace the binding in place or append. -/
def qSet (q : Query) (k : String) (c : Cond) : Query :=
  match q with
  | [] => [(k, c)]
  | (k₁, c₁) :: rest => if k₁ = k then (k₁, c) :: rest else (k₁, c₁) :: qSet rest k c

/-- The ordering `$gte` uses: timestamps against timestamps, integers against
integers; other comparisons do not match (only `storage_time` and date fields
are ever range-filtered in the source). -/
def vle : Val → Val → Bool
  | .int a, .int b => a ≤ b
  | .time a, .time b => a ≤ b
  | _, _ => false

/-- Whether a clause holds of a present field value. -/
def condHolds (c : Cond) (v : Val) : Bool :=
  match c with
  | .eq w => v = w
  | .gte w => vle w v

/-- Mongo `find(query)` match predicate: every clause holds; a clause over an
absent field does not match. -/
def docMatches (q : Query) (d : Doc) : Bool :=
  q.all (fun kc =>
    match getF d kc.1 with
    | some v => condHolds kc.2 v
    | none => false)

/-- Sort key for `cursor.sort(field, direction)`: the numeric value of the
field (timestamps and integers, the only sorted fields in the source). -/
def sortKey (f : String) (d : Doc) : Int :=
  match getF d f with
  | some (.time t) => t
  | some (.int n) => n
  | _ => 0

/-- Insert a document into a descending-sorted run (stable). -/
def insDesc (f : String) (d : Doc) : Store → Store
  | [] => [d]
  | e :: rest =>
    if sortKey f e < sortKey f d then d :: e :: rest else e :: insDesc f d rest

/-- Stable sort, descending by `sortKey` (`cursor.sort(f, pymongo.DESCENDING)`). -/
def sortDesc (f : String) (st : Store) : Store :=
  st.foldr (insDesc f) []

/-- Insert a document into an ascending-sorted run (stable). -/
def insAsc (f : String) (d : Doc) : Store → Store
  | [] => [d]
  | e :: rest =>
    if sortKey f d < sortKey f e then d :: e :: rest else e :: insAsc f d rest

/-- Stable sort, ascending (`pymongo.ASCENDING`). -/
def sortAsc (f : String) (st : Store) : Store :=
  st.foldr (insAsc f) []

/-- The TTL in force for one `load` call:
`ttl = self.get_ttl() if not override_ttl else override_ttl`.
A zero override is falsy in Python, so it falls back to the configured TTL. -/
def effTtl (cfg : Cfg) (overrideTtl : Option Nat) : Option Nat :=
  match overrideTtl with
  | some t => if t = 0 then cfg.ttl else some t
  | none => cfg.ttl

/-- Result of `UaModel.load`: the returned documents, and the caller's query
object as observable after the call.  The source mutates the caller's dict in
place, except that `if not query_object: query_object = {}` rebinds an empty
(or omitted) dict to a fresh private one, leaving the caller's object alone. -/
structure LoadResult where
  data : Store
  callerQuery : Query
deriving DecidableEq, Repr

/-- `UaModel.load(query_object, limit, order_by, sort_order, override_ttl)`.
`sortDescOrder = true` is `pymongo.DESCENDING` (the default).  Note the source
runs `cursor.limit(1)` — the literal `1` — whenever `limit` is truthy. -/
def load (cfg : Cfg) (query : Query) (limit : Option Nat) (orderBy : Option String)
    (sortDescOrder : Bool) (overrideTtl : Option Nat) (store : Store) (now : Int) :
    LoadResult :=
  let ttl := effTtl cfg overrideTtl
  let q₀ := query
  let q₁ :=
    match ttl with
    | some t =>
      if t ≠ 0 ∧ qGet q₀ "storage_time" = none then
        qSet q₀ "storage_time" (.gte (.time (now - t)))
      else q₀
    | none => q₀
  let q₂ :=
    match cfg.unique_type with
    | some tv => qSet q₁ "storage_type" (.eq tv)
    | none => q₁
  let found := store.filter (fun d => docMatches q₂ d)
  let sorted :=
    match orderBy with
    | some f => if sortDescOrder then sortDesc f found else sortAsc f found
    | none => found
  let capped :=
    match limit with
    | some n => if n = 0 then sorted else sorted.take 1
    | none => sorted
  { data := capped, callerQuery := if query = [] then [] else q₂ }

/-!
Sprint history aggregation (`UaSprintDataFetcher._aggregate_sprint_history_data`).

A sprint snapshot is the `team_sprint_data` object handed to the aggregator:
`one_sprint['sprint']['id']` plus `one_sprint['contents']`.  Point fields are
the `'text'` slot of the three estimate-sum sub-objects (a raw numeric string
or the literal string `'null'`); issue fields are lists, of which only the
lengths matter, except for `issueKeysAddedDuringSprint` whose entries each
carry a point value reached by `common.deep_get(issue, 'fields',
'customfield_10002')`.  `deep_get` is not under version control here; modelled
from the spec: it yields the nested custom-field value, or nothing when the
path is absent (the `or 0.0` in the caller turns that into zero).  Every
field is `Option`-valued: `none` models the key being absent from the dict,
which the Python turns into a `KeyError`.  Python floats are modelled as `ℚ`.
-/

/-- The `'text'` slot of an estimate-sum object: the string `'null'` or a
numeric string. -/
inductive TextVal where
  | null
  | num (q : ℚ)
deriving DecidableEq, Repr

/-- The parts of `one_sprint['contents']` the aggregator reads. -/
structure SprintContents where
  completedEstimateSum : Option TextVal
  notCompletedEstimateSum : Option TextVal
  puntedEstimateSum : Option TextVal
  completedIssues : Option Nat
  notCompletedIssues : Option Nat
  puntedIssues : Option Nat
  addedIssues : Option (List (Option ℚ))
deriving DecidableEq, Repr

/-- One sprint snapshot as consumed by the aggregator. -/
structure Snapshot where
  sprintId : Int
  contents : SprintContents
deriving DecidableEq, Repr

instance : Inhabited Snapshot :=
  ⟨⟨0, ⟨none, none, none, none, none, none, none⟩⟩⟩

/-- The eight tracked numeric fields: the four point keys of the `point_keys`
loop and the four issue-count keys of the `issue_keys` loop. -/
inductive FKey where
  | completedPts
  | notCompletedPts
  | puntedPts
  | addedPts
  | completedIss
  | notCompletedIss
  | puntedIss
  | addedIss
deriving DecidableEq, Repr

/-- `float(orig_current if orig_current != 'null' else 0)`. -/
def textToQ : TextVal → ℚ
  | .null => 0
  | .num q => q

/-- The manual added-points total: summing
`float(deep_get(issue, 'fields', 'customfield_10002') or 0.0)`. -/
def addedPointsSum (l : List (Option ℚ)) : ℚ :=
  (l.map (fun o => o.getD 0)).sum

/-- One `{actual, running_avg, running_sum}` record. -/
structure AggRec where
  actual : ℚ
  running_avg : ℚ
  running_sum : ℚ
deriving DecidableEq, Repr

/-- The per-sprint-id slot of `aggregate_sprint_data`: the `info`
back-reference (the sprint's id, standing for `one_sprint['sprint']`) plus one
record per tracked field. -/
structure SprintAgg where
  info : Int
  completedPts : AggRec
  notCompletedPts : AggRec
  puntedPts : AggRec
  addedPts : AggRec
  completedIss : AggRec
  notCompletedIss : AggRec
  puntedIss : AggRec
  addedIss : AggRec
deriving DecidableEq, Repr

/-- Projection of a slot by field key. -/
def SprintAgg.get (r : SprintAgg) : FKey → AggRec
  | .completedPts => r.completedPts
  | .notCompletedPts => r.notCompletedPts
  | .puntedPts => r.puntedPts
  | .addedPts => r.addedPts
  | .completedIss => r.completedIss
  | .notCompletedIss => r.notCompletedIss
  | .puntedIss => r.puntedIss
  | .addedIss => r.addedIss

/-- The aggregation output: `asc_order` plus the id-keyed table (a dict,
modelled as an association list in insertion order). -/
structure AggResult where
  ascOrder : List Int
  table : List (Int × SprintAgg)
deriving DecidableEq, Repr

/-- Dict lookup on the id-keyed table. -/
def tLookup (t : List (Int × SprintAgg)) (i : Int) : Option SprintAgg :=
  match t with
  | [] => none
  | (j, r) :: rest => if j = i then some r else tLookup rest i

/-- Dict assignment on the id-keyed table: replace in place or append. -/
def tSet (t : List (Int × SprintAgg)) (i : Int) (r : SprintAgg) : List (Int × SprintAgg) :=
  match t with
  | [] => [(i, r)]
  | (j, r₁) :: rest => if j = i then (j, r) :: rest else (j, r₁) :: tSet rest i r

/-- The aggregator's failure mode: a `KeyError` on a missing contents key (or
on the back-reference read of the previous sprint's slot). -/
inductive AggErr where
  | keyError
deriving DecidableEq, Repr

/-- The record written at index 0: `average = current; running_sum = current`. -/
def firstRec (v : ℚ) : AggRec :=
  { actual := v, running_avg := v, running_sum := v }

/-- The record written at index `idx > 0`:
`running_sum = previous_running_sum + current; average = running_sum / (idx+1)`. -/
def rollRec (prev : AggRec) (v : ℚ) (idx : Nat) : AggRec :=
  { actual := v
    running_avg := (prev.running_sum + v) / (idx + 1)
    running_sum := prev.running_sum + v }

/-- The `info` stored for a sprint id: created with the sprint's metadata only
when the id is not yet in the dict (`if _id not in aggregate_sprint_data`). -/
def infoFor (t : List (Int × SprintAgg)) (i : Int) : Int :=
  match tLookup t i with
  | some old => old.info
  | none => i

/-- The loop body for one snapshot at index `idx` (previous iteration's sprint
id in `lastId`).  Reads of absent contents keys raise; they are sequenced here
in the order the Python performs them (the added-points loop first, then the
`point_keys` loop, then the `issue_keys` loop).  The per-key dict writes of one
iteration are collapsed into building the full slot at once; each key's read of
`aggregate_sprint_data[last_sprint_id][key]['running_sum']` precedes its write
of the same key, so the collapsed form stores the same values. -/
def aggStep (idx : Nat) (lastId : Int) (acc : AggResult) (s : Snapshot) :
    Except AggErr AggResult :=
  match s.contents.addedIssues with
  | none => .error .keyError
  | some added =>
    match s.contents.completedEstimateSum with
    | none => .error .keyError
    | some t₁ =>
      match s.contents.notCompletedEstimateSum with
      | none => .error .keyError
      | some t₂ =>
        match s.contents.puntedEstimateSum with
        | none => .error .keyError
        | some t₃ =>
          match s.contents.completedIssues with
          | none => .error .keyError
          | some n₁ =>
            match s.contents.notCompletedIssues with
            | none => .error .keyError
            | some n₂ =>
              match s.contents.puntedIssues with
              | none => .error .keyError
              | some n₃ =>
                let v : FKey → ℚ := fun k =>
                  match k with
                  | .completedPts => textToQ t₁
                  | .notCompletedPts => textToQ t₂
                  | .puntedPts => textToQ t₃
                  | .addedPts => addedPointsSum added
                  | .completedIss => (n₁ : ℚ)
                  | .notCompletedIss => (n₂ : ℚ)
                  | .puntedIss => (n₃ : ℚ)
                  | .addedIss => (added.length : ℚ)
                let info := infoFor acc.table s.sprintId
                if idx = 0 then
                  .ok { ascOrder := acc.ascOrder ++ [s.sprintId]
                        table := tSet acc.table s.sprintId
                          { info := info
                            completedPts := firstRec (v .completedPts)
                            notCompletedPts := firstRec (v .notCompletedPts)
                            puntedPts := firstRec (v .puntedPts)
                            addedPts := firstRec (v .addedPts)
                            completedIss := firstRec (v .completedIss)
                            notCompletedIss := firstRec (v .notCompletedIss)
                            puntedIss := firstRec (v .puntedIss)
                            addedIss := firstRec (v .addedIss) } }
                else
                  match tLookup acc.table lastId with
                  | none => .error .keyError
                  | some prev =>
                    .ok { ascOrder := acc.ascOrder ++ [s.sprintId]
                          table := tSet acc.table s.sprintId
                            { info := info
                              completedPts := rollRec prev.completedPts (v .completedPts) idx
                              notCompletedPts := rollRec prev.notCompletedPts (v .notCompletedPts) idx
                              puntedPts := rollRec prev.puntedPts (v .puntedPts) idx
                              addedPts := rollRec prev.addedPts (v .addedPts) idx
                              completedIss := rollRec prev.completedIss (v .completedIss) idx
                              notCompletedIss := rollRec prev.notCompletedIss (v .notCompletedIss) idx
                              puntedIss := rollRec prev.puntedIss (v .puntedIss) idx
                              addedIss := rollRec prev.addedIss (v .addedIss) idx } }

/-- The enumerated loop over the ascending list, carrying `idx` and
`last_sprint_id` (initialised to `0`). -/
def aggLoop : List Snapshot → Nat → Int → AggResult → Except AggErr AggResult
  | [], _, _, acc => .ok acc
  | s :: rest, idx, lastId, acc =>
    match aggStep idx lastId acc s with
    | .error e => .error e
    | .ok acc₁ => aggLoop rest (idx + 1) s.sprintId acc₁

/-- `_aggregate_sprint_history_data`: the input arrives most-recent-first and
is reversed into ascending order before the enumerated loop runs. -/
def aggregateSprintHistory (sprint_data : List Snapshot) : Except AggErr AggResult :=
  aggLoop sprint_data.reverse 0 0 { ascOrder := [], table := [] }

/-- Whether a snapshot carries every contents key the aggregator reads. -/
def completeSnap (s : Snapshot) : Bool :=
  s.contents.completedEstimateSum.isSome &&
  s.contents.notCompletedEstimateSum.isSome &&
  s.contents.puntedEstimateSum.isSome &&
  s.contents.completedIssues.isSome &&
  s.contents.notCompletedIssues.isSome &&
  s.contents.puntedIssues.isSome &&
  s.contents.addedIssues.isSome

/-- Specification-side value of a tracked field of one snapshot (`'null'`
reads as zero; the absent cases are unreachable for complete snapshots). -/
def snapVal (s : Snapshot) : FKey → ℚ
  | .completedPts => textToQ (s.contents.completedEstimateSum.getD .null)
  | .notCompletedPts => textToQ (s.contents.notCompletedEstimateSum.getD .null)
  | .puntedPts => textToQ (s.contents.puntedEstimateSum.getD .null)
  | .addedPts => addedPointsSum (s.contents.addedIssues.getD [])
  | .completedIss => ((s.contents.completedIssues.getD 0 : Nat) : ℚ)
  | .notCompletedIss => ((s.contents.notCompletedIssues.getD 0 : Nat) : ℚ)
  | .puntedIss => ((s.contents.puntedIssues.getD 0 : Nat) : ℚ)
  | .addedIss => (((s.contents.addedIssues.getD []).length : Nat) : ℚ)

/-- Specification-side running sum of a field over ascending indices `0..j`. -/
def runSum (asc : List Snapshot) (k : FKey) (j : Nat) : ℚ :=
  ((asc.take (j + 1)).map (fun s => snapVal s k)).sum

/-- The sprint id at ascending index `j`. -/
def idAt (asc : List Snapshot) (j : Nat) : Int :=
  (asc.getD j default).sprintId

/-- Specification-side slot for ascending index `j`: every field carries its
value, its running sum over `0..j`, and the running sum divided by `j+1`. -/
def specRec (asc : List Snapshot) (j : Nat) : SprintAgg :=
  let mk : FKey → AggRec := fun k =>
    { actual := snapVal (asc.getD j default) k
      running_avg := runSum asc k j / (j + 1)
      running_sum := runSum asc k j }
  { info := idAt asc j
    completedPts := mk .completedPts
    notCompletedPts := mk .notCompletedPts
    puntedPts := mk .puntedPts
    addedPts := mk .addedPts
    completedIss := mk .completedIss
    notCompletedIss := mk .notCompletedIss
    puntedIss := mk .puntedIss
    addedIss := mk .addedIss }

/-- Specification-side table after processing ascending indices `0..m-1`:
one slot per index, keyed and ordered by sprint id in ascending order. -/
def specTable (asc : List Snapshot) (m : Nat) : List (Int × SprintAgg) :=
  (List.range m).map (fun j => (idAt asc j, specRec asc j))

/-!
Remaining definitions: decidable equality for call results, the first-match
view of the store used by the upsert lemmas, the provenance predicate for
clear-before-add saves, and the concrete collections, documents and snapshots
used by counterexamples and witnesses.
-/

instance {ε α : Type} [DecidableEq ε] [DecidableEq α] : DecidableEq (Except ε α) := fun a b =>
  match a, b with
  | .error e, .error f =>
    if h : e = f then .isTrue (congrArg Except.error h)
    else .isFalse (fun hh => h (Except.error.inj hh))
  | .error _, .ok _ => .isFalse (fun hh => Except.noConfusion hh)
  | .ok _, .error _ => .isFalse (fun hh => Except.noConfusion hh)
  | .ok a, .ok b =>
    if h : a = b then .isTrue (congrArg Except.ok h)
    else .isFalse (fun hh => h (Except.ok.inj hh))

/-- The first stored document whose field `fk` equals `fv` (what an upsert's
filter finds). -/
def firstMatch (fk : String) (fv : Val) : Store → Option Doc
  | [] => none
  | d :: rest => if getF d fk = some fv then some d else firstMatch fk fv rest

/-- A stored document that originates from the given batch of a keyed or
unkeyed `save`: a decorated batch entry, possibly augmented with the `"id"`
filter field the keyed path's upsert merges in on insert. -/
def fromBatch (cfg : Cfg) (now : Int) (batch : List Doc) (e : Doc) : Prop :=
  ∃ d ∈ batch, e = decorate cfg now d ∨
    ∃ k, cfg.unique_key = some k ∧
      e = setF (decorate cfg now d) "id" ((getF (decorate cfg now d) k).getD .null)

/-- Collection keyed on field `"k"` (cf. `UaTeamSprintData`, keyed on
`sprint_id`). -/
def exCfgK : Cfg := ⟨some "k", none, false, none⟩

/-- Collection keyed on field `"id"` (cf. `UaTeamPullRequestsData`). -/
def exCfgId : Cfg := ⟨some "id", none, false, none⟩

/-- Unkeyed collection with no TTL. -/
def exCfgNoKey : Cfg := ⟨none, none, false, none⟩

/-- Unkeyed collection with a 100-second TTL. -/
def exCfgTtl : Cfg := ⟨none, some 100, false, none⟩

/-- Unkeyed clear-before-add collection (cf. `UaDashboardData`). -/
def exCfgClear : Cfg := ⟨none, none, true, none⟩

def exDoc1 : Doc := [("k", .int 1), ("a", .int 1)]

def exDoc2 : Doc := [("k", .int 1), ("a", .int 2)]

def exDoc3 : Doc := [("k", .int 1), ("a", .int 3)]

def exDocId : Doc := [("id", .int 7), ("a", .int 1)]

/-- A pre-existing stored entry with unique-key value 1 (and no `"id"` field). -/
def exPrior : Store := [[("k", .int 1), ("a", .int 0)]]

/-- A batch colliding with `exPrior` on the unique key. -/
def exBatch9 : List Doc := [[("k", .int 1), ("a", .int 9)]]

/-- A stored entry written 50 seconds before the clock origin. -/
def exOld : Doc := [("storage_time", .time (-50))]

def exT1 : Doc := [("storage_time", .time 1)]

def exT2 : Doc := [("storage_time", .time 2)]

/-- The contents after `update exCfgK [] [exDoc1] [] 0`. -/
def exU1 : Store := [[("k", .int 1), ("a", .int 1), ("storage_time", .time 0), ("storage_type", .null)]]

/-- A complete snapshot with the given sprint id and completed points, all
other tracked fields zero. -/
def exSnap (i : Int) (pts : ℚ) : Snapshot :=
  ⟨i, ⟨some (.num pts), some (.num 0), some (.num 0), some 0, some 0, some 0, some []⟩⟩

/-- The spec's worked example: sprints supplied most-recent-first with
completed points 30, 20, 10. -/
def exSprintsDesc : List Snapshot := [exSnap 3 30, exSnap 2 20, exSnap 1 10]

/-- A snapshot whose `completedIssuesEstimateSum` contents key is absent. -/
def exSnapMissing : Snapshot :=
  ⟨5, ⟨none, some (.num 0), some (.num 0), some 0, some 0, some 0, some []⟩⟩

/-- A snapshot whose `completedIssuesEstimateSum` text is the string `'null'`. -/
def exSnapNull : Snapshot :=
  ⟨5, ⟨some .null, some (.num 0), some (.num 0), some 0, some 0, some 0, some []⟩⟩

/-!
Claim theorems.  Lemma names without a claim id are shared helpers.
-/

/-- Claim C1 (code_bug evidence).  The claim says a keyed `save` upserts on the
unique-key field's value, replacing a colliding entry and never duplicating it.
The source's `save` filters each upsert on the literal field `"id"` instead
(`find_one_and_replace({"id": d[unique_key]}, ...)`), while the replacement
document need not carry an `"id"` field.  On a collection keyed on `"k"`,
saving three entries that all carry `k = 1` leaves two stored entries with
`k = 1`: the second save's replacement dropped the merged `"id"` field, so the
third save's filter matches nothing and inserts a duplicate (on real MongoDB
the unique index `__init__` creates on `k` would make this write raise
`DuplicateKeyError` instead of replacing). -/
theorem save_unique_key_bug :
    ((save exCfgK [] [exDoc1] [] 0).bind (fun s₁ =>
      (save exCfgK [] [exDoc2] s₁ 0).bind (fun s₂ =>
        save exCfgK [] [exDoc3] s₂ 0))).map
      (fun s => (s.filter (fun d => decide (getF d "k" = some (.int 1)))).length)
      = .ok 2 := by decide

/-- Claim C6 (counterexample).  The claim says `Save` and `Update` fail with
`NoDataError` on an empty batch for every collection; on a collection without
a unique key, `update` raises its configuration `ValueError` first, because the
unique-key check precedes the empty-batch check. -/
theorem update_empty_unkeyed_counterexample :
    update exCfgNoKey [] [] [] 0 = .error .configError ∧
    update exCfgNoKey [] [] [] 0 ≠ .error .noData := by decide

/-- Claim C6 (amended).  With nothing staged and an empty batch, `save` fails
with the no-data error on every collection and leaves the contents unchanged;
`update` does the same on keyed collections, while on unkeyed collections the
configuration error takes precedence — either way the contents are unchanged. -/
theorem empty_batch_no_data (cfg : Cfg) (st : Store) (now : Int) :
    save cfg [] [] st now = .error .noData ∧
    storeAfter st (save cfg [] [] st now) = st ∧
    (∀ k, cfg.unique_key = some k → update cfg [] [] st now = .error .noData) ∧
    (cfg.unique_key = none → update cfg [] [] st now = .error .configError) ∧
    storeAfter st (update cfg [] [] st now) = st := by
  have hs : save cfg [] [] st now = .error .noData := by
    simp [save, effData]
  have hu : ∀ k, cfg.unique_key = some k → update cfg [] [] st now = .error .noData := by
    intro k hk
    simp [update, hk, effData]
  have hn : cfg.unique_type = cfg.unique_type := rfl
  refine ⟨hs, by rw [hs]; rfl, hu, ?_, ?_⟩
  · intro hk
    simp [update, hk]
  · cases hk : cfg.unique_key with
    | none => rw [show update cfg [] [] st now = .error .configError by simp [update, hk]]; rfl
    | some k => rw [hu k hk]; rfl

/-- Witness for C6 at a keyed and an unkeyed collection. -/
theorem empty_batch_no_data_witness :
    exCfgK.unique_key = some "k" ∧
    update exCfgK [] [] [] 0 = .error .noData ∧
    save exCfgK [] [] [] 0 = .error .noData :=
  ⟨rfl, (empty_batch_no_data exCfgK [] 0).2.2.1 "k" rfl, (empty_batch_no_data exCfgK [] 0).1⟩

/-- Claim C7 (counterexample).  The claim says `Update` produces the same final
state as `Save` with `clear_before_add` forced false.  On a collection keyed on
`"k"` holding one entry with `k = 1` (and no `"id"` field), updating with a
colliding entry replaces it, but the same `save` call filters on `"id"`,
matches nothing, and appends — two different final states. -/
theorem update_vs_save_counterexample :
    update exCfgK [] exBatch9 exPrior 0 ≠
      save { exCfgK with clear_before_add := false } [] exBatch9 exPrior 0 := by decide

/-- Claim C7 (amended).  When the configured unique key is the literal field
`"id"`, `update` coincides with `save` on the collection with
`clear_before_add` forced false: both fail alike (no-data, missing-key) and
both perform the same sequence of upserts filtered on `"id"`. -/
theorem update_eq_save_id_key (cfg : Cfg) (hk : cfg.unique_key = some "id")
    (sd batch : List Doc) (st : Store) (now : Int) :
    update cfg sd batch st now
      = save { cfg with clear_before_add := false } sd batch st now := by
  have hd : decorate ⟨some "id", cfg.ttl, false, cfg.unique_type⟩ now = decorate cfg now := by
    funext d
    simp [decorate]
  simp [update, save, hk, hd]

/-- Witness for C7 on a collection keyed on `"id"`. -/
theorem update_eq_save_id_key_witness :
    exCfgId.unique_key = some "id" ∧
    update exCfgId [] [exDocId] [] 0
      = save { exCfgId with clear_before_add := false } [] [exDocId] [] 0 :=
  ⟨rfl, update_eq_save_id_key exCfgId rfl [] [exDocId] [] 0⟩

/-- A document produced by one upsert is a prior document, the replacement, or
the replacement with the filter field merged in. -/
theorem mem_upsertDoc {fk : String} {fv : Val} {repl e : Doc} :
    ∀ {st : Store}, e ∈ upsertDoc fk fv repl st →
      e ∈ st ∨ e = repl ∨ e = setF repl fk fv := by
  intro st
  induction st with
  | nil =>
    intro h
    simp only [upsertDoc, List.mem_singleton] at h
    by_cases hf : hasF repl fk
    · rw [if_pos hf] at h
      exact Or.inr (Or.inl h)
    · rw [if_neg hf] at h
      exact Or.inr (Or.inr h)
  | cons d rest ih =>
    intro h
    simp only [upsertDoc] at h
    by_cases hm : getF d fk = some fv
    · rw [if_pos hm] at h
      rcases List.mem_cons.mp h with h₁ | h₁
      · exact Or.inr (Or.inl h₁)
      · exact Or.inl (List.mem_cons_of_mem d h₁)
    · rw [if_neg hm] at h
      rcases List.mem_cons.mp h with h₁ | h₁
      · exact Or.inl (h₁ ▸ List.mem_cons_self d rest)
      · rcases ih h₁ with h₂ | h₂
        · exact Or.inl (List.mem_cons_of_mem d h₂)
        · exact Or.inr h₂

/-- A document produced by a batch of upserts is a prior document or arises
from a batch entry (as the replacement or its filter-merged insert form). -/
theorem mem_upsertAllBy {fk : String} {keyf : Doc → Val} {e : Doc} :
    ∀ {ds : List Doc} {st : Store}, e ∈ upsertAllBy fk keyf ds st →
      e ∈ st ∨ ∃ d ∈ ds, e = d ∨ e = setF d fk (keyf d) := by
  intro ds
  induction ds with
  | nil =>
    intro st h
    exact Or.inl h
  | cons d ds ih =>
    intro st h
    rcases ih h with h₁ | h₁
    · rcases mem_upsertDoc h₁ with h₂ | h₂ | h₂
      · exact Or.inl h₂
      · exact Or.inr ⟨d, List.mem_cons_self d ds, Or.inl h₂⟩
      · exact Or.inr ⟨d, List.mem_cons_self d ds, Or.inr h₂⟩
    · rcases h₁ with ⟨d₁, hd₁, he⟩
      exact Or.inr ⟨d₁, List.mem_cons_of_mem d hd₁, he⟩

/-- Claim C5.  A `save` on a clear-before-add collection first deletes
everything, so its result does not depend on the prior contents; on the
unkeyed (bulk-insert) path the collection afterwards holds exactly the
decorated batch, and on the keyed path every stored entry arises from the
batch. -/
theorem save_clear_before_add (cfg : Cfg) (hclear : cfg.clear_before_add = true)
    (sd batch : List Doc) (st : Store) (now : Int) (hb : batch ≠ []) :
    save cfg sd batch st now = save cfg sd batch [] now ∧
    (cfg.unique_key = none → save cfg sd batch st now = .ok (batch.map (decorate cfg now))) ∧
    (∀ st₁, save cfg sd batch st now = .ok st₁ → ∀ e ∈ st₁, fromBatch cfg now batch e) := by
  have heff : effData sd batch = batch := if_neg hb
  refine ⟨by simp [save, hclear], ?_, ?_⟩
  · intro hk
    simp [save, hclear, hk, heff, hb]
  · intro st₁ hok e he
    rw [show save cfg sd batch st now = save cfg sd batch [] now by simp [save, hclear]] at hok
    revert hok
    cases hk : cfg.unique_key with
    | none =>
      intro hok
      simp only [save, hclear, hk, heff, if_neg hb, if_true] at hok
      rw [Except.ok.injEq] at hok
      subst hok
      rw [List.nil_append] at he
      rcases List.mem_map.mp he with ⟨d, hd, hde⟩
      exact ⟨d, hd, Or.inl hde.symm⟩
    | some k =>
      intro hok
      simp only [save, hclear, hk, heff, if_neg hb] at hok
      by_cases hall : (batch.map (decorate cfg now)).all (fun d => hasF d k)
      · rw [if_pos hall, Except.ok.injEq] at hok
        subst hok
        rcases mem_upsertAllBy he with h₁ | h₁
        · cases h₁
        · rcases h₁ with ⟨d₁, hd₁, he₁⟩
          rcases List.mem_map.mp hd₁ with ⟨d, hd, hde⟩
          subst hde
          rcases he₁ with h₂ | h₂
          · exact ⟨d, hd, Or.inl h₂⟩
          · exact ⟨d, hd, Or.inr ⟨k, hk, h₂⟩⟩
      · rw [if_neg hall] at hok
        cases hok

/-- Witness for C5: a clear-before-add collection holding one old entry ends
up holding exactly the new decorated batch. -/
theorem save_clear_before_add_witness :
    exCfgClear.clear_before_add = true ∧ ([exDoc1] : List Doc) ≠ [] ∧
    save exCfgClear [] [exDoc1] [exOld] 0 = save exCfgClear [] [exDoc1] [] 0 ∧
    save exCfgClear [] [exDoc1] [exOld] 0 = .ok ([exDoc1].map (decorate exCfgClear 0)) :=
  ⟨rfl, by decide, (save_clear_before_add exCfgClear rfl [] [exDoc1] [exOld] 0 (by decide)).1,
   (save_clear_before_add exCfgClear rfl [] [exDoc1] [exOld] 0 (by decide)).2.1 rfl⟩

/-- Adding a clause under a key the query lacks appends it. -/
theorem qSet_eq_append {q : Query} {k : String} (c : Cond) (h : qGet q k = none) :
    qSet q k c = q ++ [(k, c)] := by
  induction q with
  | nil => rfl
  | cons kc rest ih =>
    obtain ⟨k₁, c₁⟩ := kc
    simp only [qGet] at h
    by_cases hk : k₁ = k
    · rw [if_pos hk] at h
      cases h
    · rw [if_neg hk] at h
      simp only [qSet, if_neg hk, List.cons_append, List.cons.injEq, true_and]
      exact ih h

/-- Matching a concatenated query is matching both parts. -/
theorem docMatches_append (q₁ q₂ : Query) (d : Doc) :
    docMatches (q₁ ++ q₂) d = (docMatches q₁ d && docMatches q₂ d) := by
  simp [docMatches, List.all_append]

/-- Claim C3 (counterexample).  The claim says an override TTL supersedes the
configured TTL whenever one is passed.  A zero override is falsy in Python
(`if not override_ttl`), so the configured TTL is used instead: with
configured TTL 100, override 0 and `now = 0`, the entry written at time −50
has `storage_time < now − 0` and should be excluded per the claim, yet load
returns it. -/
theorem load_zero_override_counterexample :
    (load exCfgTtl [] none none true (some 0) [exOld] 0).data = [exOld] ∧
    getF exOld "storage_time" = some (.time (-50)) ∧
    ((-50 : Int) < 0 - 0) := by decide

/-- Claim C3 (amended).  When the caller's query does not constrain
`storage_time` (and no limit, ordering, or type partitioning applies), an
entry matching the caller's query is returned iff its `storage_time` is at
least `now − T'`, where `T'` is the nonzero override TTL if one was passed and
the collection's configured TTL otherwise (`effTtl`); a zero override falls
back to the configured TTL. -/
theorem load_ttl_filter (cfg : Cfg) (q : Query) (ov : Option Nat) (st : Store) (now : Int)
    (T : Nat) (hT : effTtl cfg ov = some T) (hT0 : T ≠ 0)
    (hq : qGet q "storage_time" = none) (hty : cfg.unique_type = none)
    (e : Doc) (he : e ∈ st) (hm : docMatches q e = true)
    (ts : Int) (hts : getF e "storage_time" = some (.time ts)) :
    e ∈ (load cfg q none none true ov st now).data ↔ now - T ≤ ts := by
  have hdata : (load cfg q none none true ov st now).data
      = st.filter (fun d => docMatches (qSet q "storage_time" (.gte (.time (now - T)))) d) := by
    simp [load, hT, hT0, hq, hty]
  rw [hdata, List.mem_filter]
  rw [qSet_eq_append _ hq, docMatches_append]
  simp only [he, true_and, hm, Bool.true_and]
  simp [docMatches, hts, condHolds, vle]

/-- Witness for C3: configured TTL 100 superseded by override 60; an entry
50 seconds old is within the override window and is returned. -/
theorem load_ttl_filter_witness :
    effTtl exCfgTtl (some 60) = some 60 ∧ ((60 : Nat) ≠ 0) ∧
    qGet [] "storage_time" = none ∧ exCfgTtl.unique_type = none ∧
    exOld ∈ [exOld] ∧ docMatches [] exOld = true ∧
    getF exOld "storage_time" = some (.time (-50)) ∧
    (exOld ∈ (load exCfgTtl [] none none true (some 60) [exOld] 0).data ↔ (0 : Int) - 60 ≤ -50) :=
  ⟨rfl, by decide, rfl, rfl, by decide, rfl, rfl,
   load_ttl_filter exCfgTtl [] (some 60) [exOld] 0 60 rfl (by decide) rfl rfl
     exOld (by decide) rfl (-50) rfl⟩

/-- Membership through descending insertion. -/
theorem mem_insDesc {f : String} {d e : Doc} :
    ∀ {l : Store}, e ∈ insDesc f d l ↔ e = d ∨ e ∈ l := by
  intro l
  induction l with
  | nil => simp [insDesc]
  | cons x xs ih =>
    simp only [insDesc]
    by_cases hlt : sortKey f x < sortKey f d
    · rw [if_pos hlt]
      simp [List.mem_cons]
    · rw [if_neg hlt]
      simp only [List.mem_cons, ih]
      tauto

/-- Sorting permutes, so membership is unchanged. -/
theorem mem_sortDesc {f : String} {e : Doc} :
    ∀ {l : Store}, e ∈ sortDesc f l ↔ e ∈ l := by
  intro l
  induction l with
  | nil => simp [sortDesc]
  | cons x xs ih =>
    show e ∈ insDesc f x (sortDesc f xs) ↔ _
    rw [mem_insDesc]
    simp [List.mem_cons, ih]

/-- The head of the descending sort has the largest sort key. -/
theorem sortDesc_head_max {f : String} :
    ∀ {l : Store} {e : Doc}, (sortDesc f l).head? = some e →
      ∀ d ∈ l, sortKey f d ≤ sortKey f e := by
  intro l
  induction l with
  | nil =>
    intro e he
    cases he
  | cons x xs ih =>
    intro e he d hd
    rw [show sortDesc f (x :: xs) = insDesc f x (sortDesc f xs) from rfl] at he
    cases hxs : sortDesc f xs with
    | nil =>
      rw [hxs] at he
      simp only [insDesc, List.head?_cons, Option.some.injEq] at he
      subst he
      rcases List.mem_cons.mp hd with h₁ | h₁
      · exact h₁ ▸ le_refl _
      · exact absurd (mem_sortDesc.mpr h₁) (by rw [hxs]; simp)
    | cons y rest =>
      rw [hxs] at he
      simp only [insDesc] at he
      by_cases hlt : sortKey f y < sortKey f x
      · rw [if_pos hlt] at he
        simp only [List.head?_cons, Option.some.injEq] at he
        subst he
        rcases List.mem_cons.mp hd with h₁ | h₁
        · exact h₁ ▸ le_refl _
        · exact le_of_lt (lt_of_le_of_lt (ih (by rw [hxs]; rfl) d h₁) hlt)
      · rw [if_neg hlt] at he
        simp only [List.head?_cons, Option.some.injEq] at he
        subst he
        rcases List.mem_cons.mp hd with h₁ | h₁
        · exact h₁ ▸ le_of_not_lt hlt
        · exact ih (by rw [hxs]; rfl) d h₁

/-- The sole element of a one-element prefix is the head. -/
theorem mem_take_one {e : Doc} : ∀ {l : Store}, e ∈ l.take 1 → l.head? = some e := by
  intro l
  cases l with
  | nil => intro h; cases h
  | cons x xs =>
    intro h
    simp only [List.take, List.take_zero, List.mem_singleton] at h
    rw [h]
    rfl

/-- Claim C4 (counterexample).  The claim says a load with limit `n` returns at
most `n` entries; a limit of 0 is falsy in Python (`if limit:`), so no cap is
applied at all and one entry comes back. -/
theorem load_limit_zero_counterexample :
    (load exCfgNoKey [] (some 0) none true none [exOld] 0).data.length = 1 := by decide

/-- Claim C4 (amended).  For a positive limit `n` the result has at most `n`
entries (the source in fact runs `cursor.limit(1)` whenever a limit is given,
capping at one); and with limit `n` ordered by `storage_time` descending, any
returned entry is one of the entries the same load without limit or ordering
returns, and its `storage_time` sort key is maximal among them.  An empty
result is an ordinary value, not an error. -/
theorem load_limit_cap (cfg : Cfg) (q : Query) (n : Nat) (hn : 1 ≤ n) (ob : Option String)
    (sdir : Bool) (ov : Option Nat) (st : Store) (now : Int) :
    (load cfg q (some n) ob sdir ov st now).data.length ≤ n ∧
    (∀ e ∈ (load cfg q (some n) (some "storage_time") true ov st now).data,
      e ∈ (load cfg q none none true ov st now).data ∧
      ∀ d ∈ (load cfg q none none true ov st now).data,
        sortKey "storage_time" d ≤ sortKey "storage_time" e) := by
  have hn0 : n ≠ 0 := by omega
  have hcap : (load cfg q (some n) (some "storage_time") true ov st now).data
      = (sortDesc "storage_time" ((load cfg q none none true ov st now).data)).take 1 := by
    simp [load, hn0]
  constructor
  · have : (load cfg q (some n) ob sdir ov st now).data.length ≤ 1 := by
      cases ob with
      | none => simp [load, hn0, List.length_take]
      | some f =>
        cases sdir with
        | true => simp [load, hn0, List.length_take]
        | false => simp [load, hn0, List.length_take]
    omega
  · intro e he
    rw [hcap] at he
    have hh := mem_take_one he
    constructor
    · have : e ∈ sortDesc "storage_time" ((load cfg q none none true ov st now).data) := by
        cases hl : sortDesc "storage_time" ((load cfg q none none true ov st now).data) with
        | nil => rw [hl] at hh; cases hh
        | cons x xs =>
          rw [hl] at hh
          simp only [List.head?_cons, Option.some.injEq] at hh
          rw [← hh]
          exact List.mem_cons_self x xs
      exact mem_sortDesc.mp this
    · exact fun d hd => sortDesc_head_max hh d hd

/-- Witness for C4: two stored entries, limit 1 ordered by `storage_time`
descending; the returned entry is the more recent one. -/
theorem load_limit_cap_witness :
    ((1 : Nat) ≤ 1) ∧
    (load exCfgNoKey [] (some 1) (some "storage_time") true none [exT1, exT2] 0).data.length ≤ 1 ∧
    exT2 ∈ (load exCfgNoKey [] none none true none [exT1, exT2] 0).data ∧
    sortKey "storage_time" exT1 ≤ sortKey "storage_time" exT2 :=
  ⟨by decide,
   (load_limit_cap exCfgNoKey [] 1 (by decide) (some "storage_time") true none [exT1, exT2] 0).1,
   ((load_limit_cap exCfgNoKey [] 1 (by decide) (some "storage_time") true none [exT1, exT2] 0).2
     exT2 (by decide)).1,
   ((load_limit_cap exCfgNoKey [] 1 (by decide) (some "storage_time") true none [exT1, exT2] 0).2
     exT2 (by decide)).2 exT1 (by decide)⟩

/-- Looking up the key just set yields the new clause. -/
theorem qGet_qSet_self {q : Query} {k : String} {c : Cond} :
    qGet (qSet q k c) k = some c := by
  induction q with
  | nil => simp [qSet, qGet]
  | cons kc rest ih =>
    obtain ⟨k₁, c₁⟩ := kc
    by_cases hk : k₁ = k
    · simp [qSet, qGet, hk]
    · simp only [qSet, qGet, if_neg hk]
      exact ih

/-- Setting one key leaves lookups of other keys unchanged. -/
theorem qGet_qSet_ne {q : Query} {k k₁ : String} {c : Cond} (h : k₁ ≠ k) :
    qGet (qSet q k c) k₁ = qGet q k₁ := by
  induction q with
  | nil => simp [qSet, qGet, Ne.symm h]
  | cons kc rest ih =>
    obtain ⟨k₂, c₂⟩ := kc
    by_cases hk : k₂ = k
    · subst hk
      simp [qSet, qGet, Ne.symm h]
    · simp only [qSet, qGet, if_neg hk]
      by_cases hk₁ : k₂ = k₁
      · simp [qGet, hk₁]
      · simp only [qGet, if_neg hk₁]
        exact ih

/-- Claim C10 (counterexample).  The claim says every caller-supplied query
object is mutated in place.  An empty dict is falsy, so
`if not query_object: query_object = {}` rebinds the local name to a fresh
dict: with a TTL configured, after the call the caller's empty mapping still
has no `storage_time` clause. -/
theorem load_empty_query_counterexample :
    (load exCfgTtl [] none none true none [] 5).callerQuery = [] ∧
    qGet ((load exCfgTtl [] none none true none [] 5).callerQuery) "storage_time" = none ∧
    effTtl exCfgTtl none = some 100 := by decide

/-- Claim C10 (amended).  For a non-empty caller-supplied query object the
call's clauses land in the caller's mapping: afterwards it holds the
`storage_time` lower bound (TTL in force and caller did not constrain
`storage_time`), the `storage_type` equality clause when the collection is
type-partitioned, and all the caller's other bindings. -/
theorem load_mutates_query (cfg : Cfg) (q : Query) (hq : q ≠ [])
    (limit : Option Nat) (ob : Option String) (sdir : Bool) (ov : Option Nat)
    (st : Store) (now : Int) (T : Nat) (hT : effTtl cfg ov = some T) (hT0 : T ≠ 0)
    (hqt : qGet q "storage_time" = none) :
    qGet ((load cfg q limit ob sdir ov st now).callerQuery) "storage_time"
      = some (.gte (.time (now - T))) ∧
    (∀ tv, cfg.unique_type = some tv →
      qGet ((load cfg q limit ob sdir ov st now).callerQuery) "storage_type" = some (.eq tv)) ∧
    (∀ key c, qGet q key = some c → key ≠ "storage_time" → key ≠ "storage_type" →
      qGet ((load cfg q limit ob sdir ov st now).callerQuery) key = some c) := by
  cases hty : cfg.unique_type with
  | none =>
    have hcq : (load cfg q limit ob sdir ov st now).callerQuery
        = qSet q "storage_time" (.gte (.time (now - T))) := by
      simp [load, hT, hT0, hqt, hq, hty]
    refine ⟨?_, ?_, ?_⟩
    · rw [hcq]
      exact qGet_qSet_self
    · intro tv htv
      cases htv
    · intro key c hkc hk₁ _
      rw [hcq, qGet_qSet_ne hk₁]
      exact hkc
  | some tv₀ =>
    have hcq : (load cfg q limit ob sdir ov st now).callerQuery
        = qSet (qSet q "storage_time" (.gte (.time (now - T)))) "storage_type" (.eq tv₀) := by
      simp [load, hT, hT0, hqt, hq, hty]
    refine ⟨?_, ?_, ?_⟩
    · rw [hcq, qGet_qSet_ne (by decide : "storage_time" ≠ "storage_type")]
      exact qGet_qSet_self
    · intro tv htv
      injection htv with h
      subst h
      rw [hcq]
      exact qGet_qSet_self
    · intro key c hkc hk₁ hk₂
      rw [hcq, qGet_qSet_ne hk₂, qGet_qSet_ne hk₁]
      exact hkc

/-- Witness for C10: a caller query on `team_id` gains the TTL clause and
keeps its own binding. -/
theorem load_mutates_query_witness :
    qGet ((load exCfgTtl [("team_id", .eq (.int 4))] none none true none [] 5).callerQuery)
      "storage_time" = some (.gte (.time ((5 : Int) - (100 : Nat)))) ∧
    qGet ((load exCfgTtl [("team_id", .eq (.int 4))] none none true none [] 5).callerQuery)
      "team_id" = some (.eq (.int 4)) :=
  ⟨(load_mutates_query exCfgTtl [("team_id", .eq (.int 4))] (by decide) none none true none
      [] 5 100 rfl (by decide) rfl).1,
   (load_mutates_query exCfgTtl [("team_id", .eq (.int 4))] (by decide) none none true none
      [] 5 100 rfl (by decide) rfl).2.2 "team_id" (.eq (.int 4)) rfl
      (by decide) (by decide)⟩

/-- Unfolding one upsert of a batch. -/
theorem upsertAllBy_cons {fk : String} {keyf : Doc → Val} {d : Doc} {ds : List Doc} {st : Store} :
    upsertAllBy fk keyf (d :: ds) st = upsertAllBy fk keyf ds (upsertDoc fk (keyf d) d st) := rfl

/-- Upserting the very document the filter already finds first is a no-op. -/
theorem upsertDoc_of_firstMatch {fk : String} {fv : Val} {d : Doc} :
    ∀ {st : Store}, firstMatch fk fv st = some d → upsertDoc fk fv d st = st := by
  intro st
  induction st with
  | nil => intro h; cases h
  | cons e rest ih =>
    intro h
    simp only [firstMatch] at h
    by_cases he : getF e fk = some fv
    · rw [if_pos he, Option.some.injEq] at h
      subst h
      simp only [upsertDoc, if_pos he]
    · rw [if_neg he] at h
      simp only [upsertDoc, if_neg he, ih h]

/-- After upserting a document carrying its own filter value, that document is
the first match. -/
theorem firstMatch_upsertDoc_self {fk : String} {fv : Val} {d : Doc}
    (hd : getF d fk = some fv) :
    ∀ {st : Store}, firstMatch fk fv (upsertDoc fk fv d st) = some d := by
  intro st
  induction st with
  | nil =>
    have hf : hasF d fk = true := by rw [hasF, hd]; rfl
    simp [upsertDoc, hf, firstMatch, hd]
  | cons e rest ih =>
    by_cases he : getF e fk = some fv
    · simp [upsertDoc, if_pos he, firstMatch, hd]
    · simp only [upsertDoc, if_neg he, firstMatch, ih]

/-- Upserting under a different filter value leaves the first match for this
value unchanged: every replacement carries the other value. -/
theorem firstMatch_upsertDoc_ne {fk : String} {fv fv₁ : Val} {d : Doc}
    (hd : getF d fk = some fv₁) (hne : fv₁ ≠ fv) :
    ∀ {st : Store}, firstMatch fk fv (upsertDoc fk fv₁ d st) = firstMatch fk fv st := by
  have hdne : ¬ getF d fk = some fv := by
    rw [hd]
    exact fun hh => hne (Option.some.inj hh)
  intro st
  induction st with
  | nil =>
    have hf : hasF d fk = true := by rw [hasF, hd]; rfl
    simp [upsertDoc, hf, firstMatch, hdne]
  | cons e rest ih =>
    by_cases he : getF e fk = some fv₁
    · have hene : ¬ getF e fk = some fv := by
        rw [he]
        exact fun hh => hne (Option.some.inj hh)
      simp [upsertDoc, if_pos he, firstMatch, hdne, hene]
    · simp only [upsertDoc, if_neg he, firstMatch, ih]

/-- A batch of upserts whose filter values all differ from `fv` leaves the
first match for `fv` unchanged. -/
theorem firstMatch_upsertAllBy_ne {fk : String} {keyf : Doc → Val} {fv : Val} :
    ∀ {ds : List Doc} {st : Store},
      (∀ d ∈ ds, getF d fk = some (keyf d) ∧ keyf d ≠ fv) →
      firstMatch fk fv (upsertAllBy fk keyf ds st) = firstMatch fk fv st := by
  intro ds
  induction ds with
  | nil => intro st _; rfl
  | cons d ds ih =>
    intro st h
    rw [upsertAllBy_cons, ih (fun d₁ hd₁ => h d₁ (List.mem_cons_of_mem d hd₁))]
    exact firstMatch_upsertDoc_ne (h d (List.mem_cons_self d ds)).1
      (h d (List.mem_cons_self d ds)).2

/-- Replaying a batch of upserts whose documents carry their own pairwise
distinct filter values is a no-op: each document is already the first match
for its value. -/
theorem upsertAllBy_idem {fk : String} {keyf : Doc → Val} :
    ∀ {ds : List Doc} {st : Store},
      (∀ d ∈ ds, getF d fk = some (keyf d)) → (ds.map keyf).Nodup →
      upsertAllBy fk keyf ds (upsertAllBy fk keyf ds st) = upsertAllBy fk keyf ds st := by
  intro ds
  induction ds with
  | nil => intro st _ _; rfl
  | cons d ds ih =>
    intro st h hnd
    rw [List.map_cons, List.nodup_cons] at hnd
    have hd : getF d fk = some (keyf d) := h d (List.mem_cons_self d ds)
    have htail : ∀ d₁ ∈ ds, getF d₁ fk = some (keyf d₁) ∧ keyf d₁ ≠ keyf d := by
      intro d₁ hd₁
      refine ⟨h d₁ (List.mem_cons_of_mem d hd₁), fun hh => hnd.1 ?_⟩
      rw [← hh]
      exact List.mem_map_of_mem keyf hd₁
    have hfm : firstMatch fk (keyf d)
        (upsertAllBy fk keyf ds (upsertDoc fk (keyf d) d st)) = some d := by
      rw [firstMatch_upsertAllBy_ne htail]
      exact firstMatch_upsertDoc_self hd
    rw [upsertAllBy_cons, upsertAllBy_cons, upsertDoc_of_firstMatch hfm]
    exact ih (fun d₁ hd₁ => h d₁ (List.mem_cons_of_mem d hd₁)) hnd.2

/-- Claim C9 (counterexample).  The claim includes `Save`: on a collection
keyed on `"k"`, saving the same single-entry batch twice from empty does not
reproduce the state after one save — the first save's insert merges in an
`"id"` field, which the second save's replacement drops. -/
theorem save_not_idempotent_counterexample :
    (save exCfgK [] [exDoc1] [] 0).bind (fun s₁ => save exCfgK [] [exDoc1] s₁ 0)
      ≠ save exCfgK [] [exDoc1] [] 0 := by decide

/-- Claim C9 (amended).  On a keyed collection, a successful `update` of a
non-empty batch whose unique-key values are pairwise distinct is idempotent at
a fixed write clock: replaying the same batch leaves the stored contents
unchanged.  (`Save` is covered only when the unique key is the literal `"id"`,
by the same argument; for other keys the counterexample applies.) -/
theorem update_idempotent (cfg : Cfg) (k : String) (hk : cfg.unique_key = some k)
    (sd sd₁ batch : List Doc) (st st₁ : Store) (now : Int) (hb : batch ≠ [])
    (hnd : (batch.map (fun d => (getF (decorate cfg now d) k).getD .null)).Nodup)
    (h₁ : update cfg sd batch st now = .ok st₁) :
    update cfg sd₁ batch st₁ now = .ok st₁ := by
  have heff : effData sd batch = batch := if_neg hb
  have heff₁ : effData sd₁ batch = batch := if_neg hb
  simp only [update, hk, heff, heff₁, if_neg hb] at h₁ ⊢
  by_cases hall : (batch.map (decorate cfg now)).all (fun d => hasF d k)
  · rw [if_pos hall] at h₁ ⊢
    rw [Except.ok.injEq] at h₁ ⊢
    have hcond : ∀ d ∈ batch.map (decorate cfg now),
        getF d k = some ((getF d k).getD .null) := by
      intro d hd
      have hh := List.all_eq_true.mp hall d hd
      cases hgd : getF d k with
      | none => rw [hasF, hgd] at hh; cases hh
      | some v => rfl
    have hnd₁ : ((batch.map (decorate cfg now)).map
        (fun d => (getF d k).getD .null)).Nodup := by
      rw [List.map_map]
      exact hnd
    subst h₁
    exact upsertAllBy_idem hcond hnd₁
  · rw [if_neg hall] at h₁
    cases h₁

/-- Witness for C9: one keyed entry updated twice ends in the same contents. -/
theorem update_idempotent_witness :
    update exCfgK [] [exDoc1] [] 0 = .ok exU1 ∧
    update exCfgK [] [exDoc1] exU1 0 = .ok exU1 :=
  ⟨by decide,
   update_idempotent exCfgK "k" rfl [] [] [exDoc1] [] exU1 0 (by decide) (by decide) (by decide)⟩

/-- Dict lookup distributes over append, preferring the first part. -/
theorem tLookup_append (t₁ t₂ : List (Int × SprintAgg)) (i : Int) :
    tLookup (t₁ ++ t₂) i
      = match tLookup t₁ i with
        | some r => some r
        | none => tLookup t₂ i := by
  induction t₁ with
  | nil => rfl
  | cons p rest ih =>
    obtain ⟨j, r⟩ := p
    by_cases hj : j = i
    · simp [tLookup, hj]
    · simp only [List.cons_append, tLookup, if_neg hj]
      exact ih

/-- Lookup misses when no entry carries the key. -/
theorem tLookup_eq_none {t : List (Int × SprintAgg)} {i : Int}
    (h : ∀ p ∈ t, p.1 ≠ i) : tLookup t i = none := by
  induction t with
  | nil => rfl
  | cons p rest ih =>
    obtain ⟨j, r⟩ := p
    simp only [tLookup, if_neg (h (j, r) (List.mem_cons_self _ _))]
    exact ih fun p hp => h p (List.mem_cons_of_mem _ hp)

/-- Assigning an absent key appends the binding. -/
theorem tSet_of_absent {t : List (Int × SprintAgg)} {i : Int} {r : SprintAgg}
    (h : tLookup t i = none) : tSet t i r = t ++ [(i, r)] := by
  induction t with
  | nil => rfl
  | cons p rest ih =>
    obtain ⟨j, r₁⟩ := p
    simp only [tLookup] at h
    by_cases hj : j = i
    · rw [if_pos hj] at h
      cases h
    · rw [if_neg hj] at h
      simp only [tSet, if_neg hj, List.cons_append, List.cons.injEq, true_and]
      exact ih h

/-- With pairwise distinct sprint ids, ascending positions determine ids. -/
theorem idAt_inj (asc : List Snapshot) (hnd : (asc.map Snapshot.sprintId).Nodup)
    {j₁ j₂ : Nat} (h₁ : j₁ < asc.length) (h₂ : j₂ < asc.length)
    (he : idAt asc j₁ = idAt asc j₂) : j₁ = j₂ := by
  have l₁ : j₁ < (asc.map Snapshot.sprintId).length := by simpa using h₁
  have l₂ : j₂ < (asc.map Snapshot.sprintId).length := by simpa using h₂
  have e₁ : (asc.map Snapshot.sprintId).get ⟨j₁, l₁⟩ = idAt asc j₁ := by
    rw [idAt, List.getD_eq_getElem asc default h₁]
    simp [List.get_eq_getElem, List.getElem_map]
  have e₂ : (asc.map Snapshot.sprintId).get ⟨j₂, l₂⟩ = idAt asc j₂ := by
    rw [idAt, List.getD_eq_getElem asc default h₂]
    simp [List.get_eq_getElem, List.getElem_map]
  have hget : (asc.map Snapshot.sprintId).get ⟨j₁, l₁⟩ = (asc.map Snapshot.sprintId).get ⟨j₂, l₂⟩ := by
    rw [e₁, e₂]
    exact he
  have h₁₂ := (hnd.get_inj_iff).mp hget
  exact congrArg Fin.val h₁₂

/-- Unfolding the spec table one index further. -/
theorem specTable_succ (asc : List Snapshot) (m : Nat) :
    specTable asc (m + 1) = specTable asc m ++ [(idAt asc m, specRec asc m)] := by
  rw [specTable, List.range_succ, List.map_append]
  rfl

/-- The id of a not-yet-processed index is absent from the spec table. -/
theorem tLookup_specTable_absent (asc : List Snapshot)
    (hnd : (asc.map Snapshot.sprintId).Nodup) {m : Nat} (hm : m < asc.length) :
    tLookup (specTable asc m) (idAt asc m) = none := by
  apply tLookup_eq_none
  intro p hp
  rcases List.mem_map.mp hp with ⟨j, hj, hpj⟩
  have hjm : j < m := List.mem_range.mp hj
  rw [← hpj]
  intro he
  have := idAt_inj asc hnd (lt_trans hjm hm) hm he
  omega

/-- Every processed index is found in the spec table under its id. -/
theorem tLookup_specTable_self (asc : List Snapshot)
    (hnd : (asc.map Snapshot.sprintId).Nodup) {j m : Nat}
    (hm : m ≤ asc.length) (hjm : j < m) :
    tLookup (specTable asc m) (idAt asc j) = some (specRec asc j) := by
  induction m with
  | zero => omega
  | succ m ih =>
    rw [specTable_succ, tLookup_append]
    by_cases hj : j < m
    · rw [ih (by omega) hj]
    · have hje : j = m := by omega
      subst hje
      rw [tLookup_specTable_absent asc hnd (by omega)]
      simp [tLookup]

/-- The running sum at index 0 is the value there. -/
theorem runSum_zero (asc : List Snapshot) (k : FKey) {s : Snapshot}
    (h : asc[0]? = some s) : runSum asc k 0 = snapVal s k := by
  rw [runSum, List.take_succ, h]
  simp

/-- The running sum extends by the value at the new index. -/
theorem runSum_succ (asc : List Snapshot) (k : FKey) {m : Nat} {s : Snapshot}
    (h : asc[m]? = some s) (hm : m ≠ 0) :
    runSum asc k m = runSum asc k (m - 1) + snapVal s k := by
  obtain ⟨j, rfl⟩ : ∃ j, m = j + 1 := ⟨m - 1, by omega⟩
  rw [runSum, runSum]
  simp only [Nat.add_sub_cancel]
  rw [List.take_succ, h]
  simp

/-- Bridging the default-valued index read with the successful lookup. -/
theorem getD_of_getElem (asc : List Snapshot) {m : Nat} {s : Snapshot}
    (h : asc[m]? = some s) : asc.getD m default = s := by
  have hm : m < asc.length := by
    by_contra hh
    rw [List.getElem?_eq_none (by omega)] at h
    cases h
  rw [List.getD_eq_getElem asc default hm]
  rw [List.getElem?_eq_getElem hm] at h
  exact Option.some.inj h

/-- The enumerated loop, started consistently at index `m` over the suffix of
the ascending list, completes the spec table: every processed sprint id maps
to its `{actual, running_sum, running_avg}` slot. -/
theorem aggLoop_spec (asc : List Snapshot) (hnd : (asc.map Snapshot.sprintId).Nodup)
    (hc : ∀ s ∈ asc, completeSnap s = true) :
    ∀ (rest : List Snapshot), ∀ (m : Nat) (lastId : Int) (acc : AggResult),
      asc.drop m = rest → m ≤ asc.length →
      (m ≠ 0 → lastId = idAt asc (m - 1)) →
      acc.ascOrder = (asc.take m).map Snapshot.sprintId →
      acc.table = specTable asc m →
      aggLoop rest m lastId acc
        = .ok ⟨asc.map Snapshot.sprintId, specTable asc asc.length⟩ := by
  intro rest
  induction rest with
  | nil =>
    intro m lastId acc hdrop hm _ hord htab
    have hlen : asc.length ≤ m := List.drop_eq_nil_iff.mp hdrop
    have hme : m = asc.length := by omega
    subst hme
    show Except.ok acc = _
    rw [show acc = AggResult.mk acc.ascOrder acc.table from rfl, hord, htab, List.take_length]
  | cons s rest ih =>
    intro m lastId acc hdrop hm hlast hord htab
    have hsm : asc[m]? = some s := by
      rw [← List.head?_drop, hdrop]
      rfl
    have hmlt : m < asc.length := by
      by_contra hh
      rw [List.getElem?_eq_none (by omega)] at hsm
      cases hsm
    have hdrop1 : asc.drop (m + 1) = rest := by
      rw [show asc.drop (m + 1) = List.drop 1 (asc.drop m) from (List.drop_drop 1 m asc).symm,
        hdrop]
      rfl
    have hgd : asc.getD m default = s := getD_of_getElem asc hsm
    have hid : idAt asc m = s.sprintId := by rw [idAt, hgd]
    have hsmem : s ∈ asc := by
      have hh := List.getElem?_eq_getElem hmlt
      have he : asc[m] = s := Option.some.inj (hh.symm.trans hsm)
      exact he ▸ List.getElem_mem hmlt
    have hcs := hc s hsmem
    simp only [completeSnap, Bool.and_eq_true] at hcs
    obtain ⟨⟨⟨⟨⟨⟨hcs₁, hcs₂⟩, hcs₃⟩, hcs₄⟩, hcs₅⟩, hcs₆⟩, hcs₇⟩ := hcs
    obtain ⟨t₁, ht₁⟩ := Option.isSome_iff_exists.mp hcs₁
    obtain ⟨t₂, ht₂⟩ := Option.isSome_iff_exists.mp hcs₂
    obtain ⟨t₃, ht₃⟩ := Option.isSome_iff_exists.mp hcs₃
    obtain ⟨n₁, hn₁⟩ := Option.isSome_iff_exists.mp hcs₄
    obtain ⟨n₂, hn₂⟩ := Option.isSome_iff_exists.mp hcs₅
    obtain ⟨n₃, hn₃⟩ := Option.isSome_iff_exists.mp hcs₆
    obtain ⟨added, hadd⟩ := Option.isSome_iff_exists.mp hcs₇
    have habs : tLookup acc.table s.sprintId = none := by
      rw [htab, ← hid]
      exact tLookup_specTable_absent asc hnd hmlt
    have hinfo : infoFor acc.table s.sprintId = s.sprintId := by
      rw [infoFor, habs]
    have hstep : aggStep m lastId acc s
        = .ok ⟨acc.ascOrder ++ [s.sprintId], tSet acc.table s.sprintId (specRec asc m)⟩ := by
      by_cases hm0 : m = 0
      · subst hm0
        have hrs : ∀ k, runSum asc k 0 = snapVal s k := fun k => runSum_zero asc k hsm
        have hrec : specRec asc 0
            = ⟨s.sprintId, firstRec (textToQ t₁), firstRec (textToQ t₂), firstRec (textToQ t₃),
               firstRec (addedPointsSum added), firstRec ((n₁ : ℚ)), firstRec ((n₂ : ℚ)),
               firstRec ((n₃ : ℚ)), firstRec ((added.length : ℚ))⟩ := by
          simp only [specRec, hrs, hgd, hid, firstRec, SprintAgg.mk.injEq, AggRec.mk.injEq,
            snapVal, ht₁, ht₂, ht₃, hn₁, hn₂, hn₃, hadd, Option.getD_some]
          norm_num
        simp [aggStep, hadd, ht₁, ht₂, ht₃, hn₁, hn₂, hn₃, hinfo, hrec]
      · have hprev : tLookup acc.table lastId = some (specRec asc (m - 1)) := by
          rw [htab, hlast hm0]
          exact tLookup_specTable_self asc hnd (le_of_lt hmlt) (by omega)
        have hrs : ∀ k, runSum asc k m = runSum asc k (m - 1) + snapVal s k :=
          fun k => runSum_succ asc k hsm hm0
        have hrec : specRec asc m
            = ⟨s.sprintId,
               rollRec (specRec asc (m - 1)).completedPts (textToQ t₁) m,
               rollRec (specRec asc (m - 1)).notCompletedPts (textToQ t₂) m,
               rollRec (specRec asc (m - 1)).puntedPts (textToQ t₃) m,
               rollRec (specRec asc (m - 1)).addedPts (addedPointsSum added) m,
               rollRec (specRec asc (m - 1)).completedIss ((n₁ : ℚ)) m,
               rollRec (specRec asc (m - 1)).notCompletedIss ((n₂ : ℚ)) m,
               rollRec (specRec asc (m - 1)).puntedIss ((n₃ : ℚ)) m,
               rollRec (specRec asc (m - 1)).addedIss ((added.length : ℚ)) m⟩ := by
          simp only [specRec, hrs, hgd, hid, rollRec, SprintAgg.mk.injEq, AggRec.mk.injEq,
            snapVal, ht₁, ht₂, ht₃, hn₁, hn₂, hn₃, hadd, Option.getD_some]
        simp [aggStep, hadd, ht₁, ht₂, ht₃, hn₁, hn₂, hn₃, hinfo, hprev, hm0, hrec]
    simp only [aggLoop, hstep]
    refine ih (m + 1) s.sprintId _ hdrop1 (by omega) (fun _ => ?_) ?_ ?_
    · rw [Nat.add_sub_cancel]
      exact hid.symm
    · show acc.ascOrder ++ [s.sprintId] = _
      rw [hord, List.take_succ, hsm, List.map_append]
      rfl
    · show tSet acc.table s.sprintId (specRec asc m) = _
      rw [tSet_of_absent habs, htab, ← hid, ← specTable_succ]

/-- Claim C2.  The aggregator reverses its most-recent-first input into
ascending order and then emits, for every ascending index and every tracked
numeric field, the slot recorded in `specRec`: `actual` is the field's value at
that index, `running_sum` the sum of the values at indices `0..i`, and
`running_avg` that sum divided by `i + 1` (`asc_order` lists the sprint ids in
ascending order).  Stated for histories of distinct sprints (pairwise distinct
ids — the table is keyed on sprint id) whose snapshots carry every tracked
key.  In particular, completed points supplied as `[30, 20, 10]`
most-recent-first yield ascending running sums `10, 30, 60` and running
averages `10, 15, 20`. -/
theorem aggregate_ascending_running_sums (input : List Snapshot)
    (hnd : (input.reverse.map Snapshot.sprintId).Nodup)
    (hc : ∀ s ∈ input, completeSnap s = true) :
    aggregateSprintHistory input
      = .ok ⟨input.reverse.map Snapshot.sprintId,
             specTable input.reverse input.reverse.length⟩ := by
  have hc₁ : ∀ s ∈ input.reverse, completeSnap s = true := fun s hs =>
    hc s (List.mem_reverse.mp hs)
  exact aggLoop_spec input.reverse hnd hc₁ input.reverse 0 0 _ rfl (Nat.zero_le _)
    (fun h => absurd rfl h) rfl rfl

/-- Witness for C2: the spec's worked example, with the concrete table —
completed points actual `10, 20, 30`, running sums `10, 30, 60`, running
averages `10, 15, 20` at ascending ids `1, 2, 3`. -/
theorem aggregate_ascending_running_sums_witness :
    ((exSprintsDesc.reverse.map Snapshot.sprintId).Nodup ∧
      ∀ s ∈ exSprintsDesc, completeSnap s = true) ∧
    aggregateSprintHistory exSprintsDesc
      = .ok ⟨[1, 2, 3],
          [(1, ⟨1, ⟨10, 10, 10⟩, ⟨0, 0, 0⟩, ⟨0, 0, 0⟩, ⟨0, 0, 0⟩,
                 ⟨0, 0, 0⟩, ⟨0, 0, 0⟩, ⟨0, 0, 0⟩, ⟨0, 0, 0⟩⟩),
           (2, ⟨2, ⟨20, 15, 30⟩, ⟨0, 0, 0⟩, ⟨0, 0, 0⟩, ⟨0, 0, 0⟩,
                 ⟨0, 0, 0⟩, ⟨0, 0, 0⟩, ⟨0, 0, 0⟩, ⟨0, 0, 0⟩⟩),
           (3, ⟨3, ⟨30, 20, 60⟩, ⟨0, 0, 0⟩, ⟨0, 0, 0⟩, ⟨0, 0, 0⟩,
                 ⟨0, 0, 0⟩, ⟨0, 0, 0⟩, ⟨0, 0, 0⟩, ⟨0, 0, 0⟩⟩)]⟩ :=
  ⟨⟨by decide, by decide⟩,
   (aggregate_ascending_running_sums exSprintsDesc (by decide) (by decide)).trans (by
     norm_num [specTable, specRec, runSum, snapVal, idAt, exSprintsDesc, exSnap,
       addedPointsSum, textToQ, List.range_succ])⟩

/-- Claim C8 (counterexample).  The claim says an absent tracked field is
treated as zero without raising.  A snapshot whose
`completedIssuesEstimateSum` contents key is missing makes the aggregator
raise `KeyError` (`one_sprint['contents'][key]`). -/
theorem aggregate_absent_field_counterexample :
    aggregateSprintHistory [exSnapMissing] = .error .keyError := by decide

/-- Claim C8 (amended).  A tracked point field whose raw text is the string
`'null'` is treated as zero — its slot carries `actual = 0`,
`running_sum = 0`, `running_avg = 0` — and the aggregator does not raise for
such a snapshot; a field that is absent from the contents dict raises
`KeyError` instead (the counterexample). -/
theorem aggregate_null_as_zero (s : Snapshot) (hc : completeSnap s = true)
    (hnull : s.contents.completedEstimateSum = some .null) :
    aggregateSprintHistory [s]
      = .ok ⟨[s.sprintId], [(s.sprintId, specRec [s] 0)]⟩ ∧
    (specRec [s] 0).completedPts = ⟨0, 0, 0⟩ := by
  constructor
  · have h := aggLoop_spec [s] (by simp) (fun s₁ hs₁ => by
      rcases List.mem_singleton.mp hs₁ with rfl
      exact hc) [s] 0 0 ⟨[], []⟩ rfl (Nat.zero_le _) (fun h => absurd rfl h) rfl rfl
    rw [aggregateSprintHistory]
    simp only [List.reverse_singleton] at h ⊢
    rw [h]
    rfl
  · simp [specRec, runSum, snapVal, hnull, textToQ]

/-- Witness for C8: a concrete snapshot whose completed-points text is
`'null'` aggregates without error and records zeros for that field. -/
theorem aggregate_null_as_zero_witness :
    (completeSnap exSnapNull = true ∧
      exSnapNull.contents.completedEstimateSum = some .null) ∧
    aggregateSprintHistory [exSnapNull]
      = .ok ⟨[exSnapNull.sprintId], [(exSnapNull.sprintId, specRec [exSnapNull] 0)]⟩ ∧
    (specRec [exSnapNull] 0).completedPts = ⟨0, 0, 0⟩ :=
  ⟨⟨by decide, rfl⟩, (aggregate_null_as_zero exSnapNull (by decide) rfl).1,
   (aggregate_null_as_zero exSnapNull (by decide) rfl).2⟩
